import Mathlib

/-!
A verification development for the `BatchExecutor` batch traversal and
processing engine (`packages/extractor-helpers`, `batch-executor.js`) and its
`BaseBatchProvider` contract (`batch-provider.js`).

Modelling conventions:

* Items are opaque caller values of type `α`.  The engine inspects only the
  `TRAVERSAL_RETRY` field of an item, which is absent (`none`) on caller-made
  items and set to `true` on the shallow copy `{ ...node, TRAVERSAL_RETRY: true }`
  that `#traverseNode` re-enqueues after a transient discovery failure.  We
  therefore model an item as a payload together with that optional field.

* Provider callbacks may throw; they are modelled as functions returning
  `Except ε _` for an error type `ε`.  `formatForLog` is documented as
  non-throwing and is modelled total.

* The JS engine is single-threaded (one event loop).  `async.eachLimit` runs
  the iteratee over a batch with bounded concurrency; the per-item effects
  commute between distinct items, so each batch is modelled as an in-order
  fold over the batch list (the schedule realised when the limit is 1, the
  code default `DEFAULT_LIMIT`).

* The two loops (`#startTraversalQueueProcessor`, `#startProcessorQueueProcessor`)
  share the queues.  Processing never enqueues traversal work, so the final
  queues, counters and error list are independent of how the two loops
  interleave; the model runs the traversal loop to quiescence first and then
  the processing loop.  Once `#moreNodes` is false the processing loop's guard
  is `processingQueue.length > 0`; a single snapshot-and-clear batch empties
  the queue and nothing refills it, so draining is one conditional step.

* `stop()` flips `#running` (checked by the traversal loop guard between
  batches) and `#moreNodes`.  The value of `#running` observed at the i-th
  guard check is supplied as a schedule `running : Nat → Bool`; a run without
  `stop` uses the constant-true schedule.

* A ghost `trace` field records every provider invocation, in order, so that
  statements about which items the engine hands to which callback are
  expressible.  The JS wall-clock `duration` field of `BatchResult` is not
  modelled.
-/

namespace BatchExec

/-- An item flowing through the executor: an opaque payload plus the optional
`TRAVERSAL_RETRY` field, `none` when the field is `undefined` (caller items)
and `some true` on the copy re-enqueued for a retry. -/
structure Node (α : Type) where
  val : α
  TRAVERSAL_RETRY : Option Bool
  deriving Repr, DecidableEq

/-- The `method` field of an `ErrorItem` (`'process'` or `'traverse'`). -/
inductive Method where
  | process
  | traverse
  deriving Repr, DecidableEq

/-- An entry of the executor error list: `{ method, node, err }` as pushed by
`#startProcessorQueueProcessor` and `#traverseNode`. -/
structure ErrorItem (α ε : Type) where
  method : Method
  node : Node α
  err : ε
  deriving Repr, DecidableEq

/-- One invocation of a provider callback (ghost trace entry). -/
inductive Call (α : Type) where
  | formatForLog (n : Node α)
  | hasMore (n : Node α)
  | getBatch (n : Node α)
  | shouldProcess (n : Node α)
  | process (n : Node α)
  deriving Repr, DecidableEq

/-- The `BaseBatchProvider` capability set.  Fallible callbacks return
`Except ε _`; `formatForLog` must not throw and is total. -/
structure Provider (α ε : Type) where
  formatForLog : Node α → Node α
  hasMore : Node α → Except ε Bool
  getBatch : Node α → Except ε (List (Node α))
  shouldProcess : Node α → Except ε Bool
  process : Node α → Except ε Unit

/-- The `ExecutionState` snapshot returned by `getState`: all seven fields. -/
structure ExecutionState (α ε : Type) where
  errors : List (ErrorItem α ε)
  processed : Nat
  processingBatch : List (Node α)
  processingQueue : List (Node α)
  traversed : Nat
  traversalBatch : List (Node α)
  traversalQueue : List (Node α)
  deriving Repr, DecidableEq

/-- The argument of `setState`: an `ExecutionState` in which every field may be
omitted (`none` models an absent or nullish JS field). -/
structure StateInput (α ε : Type) where
  errors : Option (List (ErrorItem α ε)) := none
  processed : Option Nat := none
  processingBatch : Option (List (Node α)) := none
  processingQueue : Option (List (Node α)) := none
  traversed : Option Nat := none
  traversalBatch : Option (List (Node α)) := none
  traversalQueue : Option (List (Node α)) := none

/-- The executor's mutable private fields (`#errors`, `#processed`,
`#processingBatch`, `#processingQueue`, `#traversed`, `#traversalBatch`,
`#traversalQueue`) plus the ghost `trace` of provider invocations. -/
structure Exec (α ε : Type) where
  errors : List (ErrorItem α ε) := []
  processed : Nat := 0
  processingBatch : List (Node α) := []
  processingQueue : List (Node α) := []
  traversed : Nat := 0
  traversalBatch : List (Node α) := []
  traversalQueue : List (Node α) := []
  trace : List (Call α) := []
  deriving Repr

/-- `getState()`: returns the seven state fields. -/
def getState (e : Exec α ε) : ExecutionState α ε where
  errors := e.errors
  processed := e.processed
  processingBatch := e.processingBatch
  processingQueue := e.processingQueue
  traversed := e.traversed
  traversalBatch := e.traversalBatch
  traversalQueue := e.traversalQueue

/-- `setState(state)`: replaces every internal field, defaulting an omitted
field to `[]` resp. `0` (`state.errors || []`, `state.processed || 0`, ...).
The ghost trace is untouched (it is not part of the JS state). -/
def setState (s : StateInput α ε) (e : Exec α ε) : Exec α ε where
  errors := s.errors.getD []
  processed := s.processed.getD 0
  processingBatch := s.processingBatch.getD []
  processingQueue := s.processingQueue.getD []
  traversed := s.traversed.getD 0
  traversalBatch := s.traversalBatch.getD []
  traversalQueue := s.traversalQueue.getD []
  trace := e.trace

/-- The discovery phase of `#traverseNode` (the try-block up to the point where
`canRetry` is set to `false`): `formatForLog`, then `hasMore`, then `getBatch`
when `hasMore` returned true (an absent children list behaves as `[]` for the
subsequent `children?.forEach`), then `shouldProcess`.  Returns the outcome
together with the provider calls made. -/
def discover (p : Provider α ε) (n : Node α) :
    Except ε (List (Node α) × Bool) × List (Call α) :=
  match p.hasMore n with
  | .error e => (.error e, [.formatForLog n, .hasMore n])
  | .ok true =>
    match p.getBatch n with
    | .error e => (.error e, [.formatForLog n, .hasMore n, .getBatch n])
    | .ok children =>
      match p.shouldProcess n with
      | .error e =>
        (.error e, [.formatForLog n, .hasMore n, .getBatch n, .shouldProcess n])
      | .ok b =>
        (.ok (children, b), [.formatForLog n, .hasMore n, .getBatch n, .shouldProcess n])
  | .ok false =>
    match p.shouldProcess n with
    | .error e => (.error e, [.formatForLog n, .hasMore n, .shouldProcess n])
    | .ok b => (.ok ([], b), [.formatForLog n, .hasMore n, .shouldProcess n])

/-- `#traverseNode(node)`: on success, push the children onto the traversal
queue, push the node onto the processing queue when `shouldProcess` was true,
and increment `#traversed`.  On a discovery failure: when the node has no
`TRAVERSAL_RETRY` field (`canRetry`), re-enqueue `{ ...node, TRAVERSAL_RETRY: true }`
onto the traversal queue; otherwise record an `ErrorItem` with method
`'traverse'`. -/
def traverseNode (p : Provider α ε) (e : Exec α ε) (n : Node α) : Exec α ε :=
  match discover p n with
  | (.ok (children, sp), tr) =>
    { e with
      traversalQueue := e.traversalQueue ++ children
      processingQueue := if sp then e.processingQueue ++ [n] else e.processingQueue
      traversed := e.traversed + 1
      trace := e.trace ++ tr }
  | (.error err, tr) =>
    if n.TRAVERSAL_RETRY.isNone then
      { e with
        traversalQueue := e.traversalQueue ++ [{ n with TRAVERSAL_RETRY := some true }]
        trace := e.trace ++ tr }
    else
      { e with
        errors := e.errors ++ [⟨.traverse, n, err⟩]
        trace := e.trace ++ tr }

/-- One iteration of the traversal loop body: splice the whole traversal queue
into `#traversalBatch` and traverse every node of the batch. -/
def traversalStep (p : Provider α ε) (e : Exec α ε) : Exec α ε :=
  let batch := e.traversalQueue
  batch.foldl (traverseNode p) { e with traversalQueue := [], traversalBatch := batch }

/-- `#startTraversalQueueProcessor`: iterate `traversalStep` while the
traversal queue is non-empty and `#running` is true; `running i` is the value
of the `#running` flag observed at the i-th guard check (constantly true for a
run on which `stop()` is never called).  `fuel` bounds the number of
iterations; once the queue is empty the state is a fixpoint, so any
sufficiently large fuel yields the loop's limit. -/
def traversalLoop (p : Provider α ε) (running : Nat → Bool) :
    Nat → Nat → Exec α ε → Exec α ε
  | 0, _, e => e
  | fuel + 1, i, e =>
    if !e.traversalQueue.isEmpty && running i then
      traversalLoop p running fuel (i + 1) (traversalStep p e)
    else e

/-- The iteratee of the processing loop: `formatForLog`, then `process`;
a success increments `#processed`, a thrown error is caught and recorded as an
`ErrorItem` with method `'process'`. -/
def processNode (p : Provider α ε) (e : Exec α ε) (n : Node α) : Exec α ε :=
  match p.process n with
  | .ok _ =>
    { e with
      processed := e.processed + 1
      trace := e.trace ++ [.formatForLog n, .process n] }
  | .error err =>
    { e with
      errors := e.errors ++ [⟨.process, n, err⟩]
      trace := e.trace ++ [.formatForLog n, .process n] }

/-- One iteration of the processing loop body: splice the whole processing
queue into `#processingBatch` and process every node of the batch. -/
def processingStep (p : Provider α ε) (e : Exec α ε) : Exec α ε :=
  let batch := e.processingQueue
  batch.foldl (processNode p) { e with processingQueue := [], processingBatch := batch }

/-- `#startProcessorQueueProcessor` once `#moreNodes` is false (true from the
start in `processItems`, and after the traversal loop resp. `stop()` in
`traverseTree`): the guard degenerates to `processingQueue.length > 0`, the
loop body is entered only on a non-empty queue, one snapshot-and-clear batch
empties the queue, and nothing refills it, so the loop is one conditional
step. -/
def processorDrain (p : Provider α ε) (e : Exec α ε) : Exec α ε :=
  if e.processingQueue.isEmpty then e else processingStep p e

/-- `processItems(toProcess)`: append the optional argument to the processing
queue (`toProcess.forEach(it => queue.push(it))`) and run the processing loop
to exhaustion (`#moreNodes` is false for the whole call). -/
def processItemsRun (p : Provider α ε) (toProcess : Option (List (Node α)))
    (e : Exec α ε) : Exec α ε :=
  processorDrain p { e with processingQueue := e.processingQueue ++ toProcess.getD [] }

/-- `traverseTree(root)`: push the optional root onto the traversal queue and
run the traversal loop (under the given `running` schedule) and then the
processing drain. -/
def traverseTreeRun (p : Provider α ε) (root : Option (Node α))
    (running : Nat → Bool) (fuel : Nat) (e : Exec α ε) : Exec α ε :=
  processorDrain p
    (traversalLoop p running fuel 0
      { e with traversalQueue := e.traversalQueue ++ root.toList })

/-- The `BatchResult` value (the wall-clock `duration` field is not
modelled). -/
structure BatchResult (α ε : Type) where
  errors : List (ErrorItem α ε)
  processed : Nat
  traversed : Option Nat := none
  deriving Repr

/-- The result returned by `processItems`: `{ errors, processed }` read off the
final state. -/
def processItemsResult (p : Provider α ε) (toProcess : Option (List (Node α)))
    (e : Exec α ε) : BatchResult α ε :=
  let f := processItemsRun p toProcess e
  { errors := f.errors, processed := f.processed }

/-- The result returned by `traverseTree`: `{ errors, processed, traversed }`
read off the final state. -/
def traverseTreeResult (p : Provider α ε) (root : Option (Node α))
    (running : Nat → Bool) (fuel : Nat) (e : Exec α ε) : BatchResult α ε :=
  let f := traverseTreeRun p root running fuel e
  { errors := f.errors, processed := f.processed, traversed := some f.traversed }

/-- `BatchConfig` as read by the constructor and the loops (`processBatchSize`
and `traversalBatchSize` are the legacy aliases the loops fall back to). -/
structure BatchConfig where
  processLimit : Option Nat := none
  traversalLimit : Option Nat := none
  waitDuration : Option Nat := none
  processBatchSize : Option Nat := none
  traversalBatchSize : Option Nat := none
  deriving Repr, DecidableEq

/-- `{ waitDuration: 100, ...(config || {}) }`: the stored configuration, with
`waitDuration` defaulted when the caller did not supply one. -/
def defaultedConfig (c : Option BatchConfig) : BatchConfig :=
  let c0 := c.getD {}
  { c0 with waitDuration := some (c0.waitDuration.getD 100) }

/-- A constructed executor: the provider, the stored config, and the initial
private fields. -/
structure Executor (α ε : Type) where
  provider : Provider α ε
  config : BatchConfig
  state : Exec α ε

/-- The constructor: `if (!provider) throw new Error('Batch provider required')`;
otherwise store the provider and the defaulted config.  No other validation is
performed and nothing else can throw. -/
def mkBatchExecutor (provider : Option (Provider α ε)) (config : Option BatchConfig) :
    Except String (Executor α ε) :=
  match provider with
  | none => .error "Batch provider required"
  | some p => .ok { provider := p, config := defaultedConfig config, state := {} }

/-- A `StateInput` with every field present, taken from an `ExecutionState`. -/
def fullInput (s : ExecutionState α ε) : StateInput α ε where
  errors := some s.errors
  processed := some s.processed
  processingBatch := some s.processingBatch
  processingQueue := some s.processingQueue
  traversed := some s.traversed
  traversalBatch := some s.traversalBatch
  traversalQueue := some s.traversalQueue

/-- The number of items of a list whose `process` call succeeds. -/
def okCount (p : Provider α ε) : List (Node α) → Nat
  | [] => 0
  | n :: ns => (match p.process n with | .ok _ => 1 | .error _ => 0) + okCount p ns

/-- The error entries the processing loop records for a list of items, in
order. -/
def processErrors (p : Provider α ε) : List (Node α) → List (ErrorItem α ε)
  | [] => []
  | n :: ns =>
    (match p.process n with
     | .ok _ => []
     | .error err => [⟨.process, n, err⟩]) ++ processErrors p ns

/-- The provider calls the processing loop makes for a list of items:
`formatForLog` then `process`, per item, in order. -/
def processTrace : List (Node α) → List (Call α)
  | [] => []
  | n :: ns => [.formatForLog n, .process n] ++ processTrace ns

lemma foldl_processNode (p : Provider α ε) (ns : List (Node α)) (e : Exec α ε) :
    ns.foldl (processNode p) e =
      { e with
        processed := e.processed + okCount p ns
        errors := e.errors ++ processErrors p ns
        trace := e.trace ++ processTrace ns } := by
  induction ns generalizing e with
  | nil => simp [okCount, processErrors, processTrace]
  | cons n ns ih =>
    rw [List.foldl_cons, ih]
    cases h : p.process n <;>
      simp [processNode, okCount, processErrors, processTrace, h,
        List.append_assoc, Nat.add_assoc, Nat.add_comm 1]

lemma processingStep_spec (p : Provider α ε) (e : Exec α ε) :
    processingStep p e =
      { e with
        processingQueue := []
        processingBatch := e.processingQueue
        processed := e.processed + okCount p e.processingQueue
        errors := e.errors ++ processErrors p e.processingQueue
        trace := e.trace ++ processTrace e.processingQueue } := by
  simp [processingStep, foldl_processNode]

lemma processorDrain_spec (p : Provider α ε) (e : Exec α ε) :
    processorDrain p e =
      if e.processingQueue.isEmpty then e else
      { e with
        processingQueue := []
        processingBatch := e.processingQueue
        processed := e.processed + okCount p e.processingQueue
        errors := e.errors ++ processErrors p e.processingQueue
        trace := e.trace ++ processTrace e.processingQueue } := by
  by_cases h : e.processingQueue.isEmpty <;> simp [processorDrain, h, processingStep_spec]

lemma okCount_append (p : Provider α ε) (l1 l2 : List (Node α)) :
    okCount p (l1 ++ l2) = okCount p l1 + okCount p l2 := by
  induction l1 with
  | nil => simp [okCount]
  | cons n ns ih => simp [okCount, ih, Nat.add_assoc]

lemma processErrors_append (p : Provider α ε) (l1 l2 : List (Node α)) :
    processErrors p (l1 ++ l2) = processErrors p l1 ++ processErrors p l2 := by
  induction l1 with
  | nil => simp [processErrors]
  | cons n ns ih => simp [processErrors, ih, List.append_assoc]

lemma okCount_all_ok (p : Provider α ε) (l : List (Node α))
    (h : ∀ y ∈ l, p.process y = .ok ()) : okCount p l = l.length := by
  induction l with
  | nil => simp [okCount]
  | cons n ns ih =>
    have hn := h n (by simp)
    simp [okCount, hn, ih fun y hy => h y (by simp [hy]), Nat.add_comm]

lemma processErrors_all_ok (p : Provider α ε) (l : List (Node α))
    (h : ∀ y ∈ l, p.process y = .ok ()) : processErrors p l = [] := by
  induction l with
  | nil => simp [processErrors]
  | cons n ns ih =>
    have hn := h n (by simp)
    simp [processErrors, hn, ih fun y hy => h y (by simp [hy])]

lemma okCount_add_processErrors_length (p : Provider α ε) (l : List (Node α)) :
    okCount p l + (processErrors p l).length = l.length := by
  induction l with
  | nil => simp [okCount, processErrors]
  | cons n ns ih =>
    cases h : p.process n <;> simp [okCount, processErrors, h] <;> omega

lemma traversalLoop_of_empty (p : Provider α ε) (r : Nat → Bool) (fuel i : Nat)
    (e : Exec α ε) (h : e.traversalQueue = []) :
    traversalLoop p r fuel i e = e := by
  cases fuel <;> simp [traversalLoop, h]

/-- C7: constructing with a missing provider fails synchronously with the
invalid-argument error `'Batch provider required'`, before any run and any
provider callback (the failure is the constructor's return, produced without
consulting a provider); constructing with a provider present never fails,
whatever the config — in particular every config-related construction error
(there are none) is raised at construction time, not later. -/
theorem C7_constructor_validation (α ε : Type) :
    (∀ config : Option BatchConfig,
      mkBatchExecutor (α := α) (ε := ε) none config = .error "Batch provider required") ∧
    (∀ (p : Provider α ε) (config : Option BatchConfig),
      ∃ ex, mkBatchExecutor (some p) config = .ok ex ∧ ex.provider = p) :=
  ⟨fun _ => rfl, fun p c => ⟨_, rfl, rfl⟩⟩

/-- C8: `setState` replaces all internal queues and counters, with every
omitted field defaulting to an empty list (queues, batches, errors) or zero
(counters); consequently for a snapshot with all seven fields present,
`getState` immediately after `setState` returns that snapshot unchanged. -/
theorem C8_setState_getState_roundtrip (α ε : Type) (s : ExecutionState α ε)
    (e e2 : Exec α ε) (inp : StateInput α ε) :
    getState (setState (fullInput s) e) = s ∧
    getState (setState inp e2) =
      { errors := inp.errors.getD []
        processed := inp.processed.getD 0
        processingBatch := inp.processingBatch.getD []
        processingQueue := inp.processingQueue.getD []
        traversed := inp.traversed.getD 0
        traversalBatch := inp.traversalBatch.getD []
        traversalQueue := inp.traversalQueue.getD [] } :=
  ⟨rfl, rfl⟩

/-- C3: for a batch of N items in the processing queue in which `process`
throws for exactly one item `x` and succeeds for the other N−1, the run
completes with `processed = N − 1`, the error list holds exactly one entry,
with method `'process'` and recording `x`, and the processing queue is empty:
the failure halts neither the rest of the batch nor the loop. -/
theorem C3_process_failure_isolated (α ε : Type) (p : Provider α ε)
    (as bs : List (Node α)) (x : Node α) (err : ε)
    (ha : ∀ y ∈ as, p.process y = .ok ())
    (hb : ∀ y ∈ bs, p.process y = .ok ())
    (hx : p.process x = .error err) :
    (processItemsResult p (some (as ++ x :: bs)) {}).processed =
        (as ++ x :: bs).length - 1 ∧
    (processItemsResult p (some (as ++ x :: bs)) {}).errors =
        [⟨.process, x, err⟩] ∧
    (processItemsRun p (some (as ++ x :: bs)) {}).processingQueue = [] := by
  have hempty : ((as ++ x :: bs).isEmpty) = false := by
    cases as <;> simp
  have hrun : processItemsRun p (some (as ++ x :: bs)) {} =
      processorDrain p
        ({ processingQueue := as ++ x :: bs } : Exec α ε) := by
    simp [processItemsRun]
  have hok : okCount p (as ++ x :: bs) = as.length + bs.length := by
    rw [okCount_append, okCount_all_ok p as ha]
    simp [okCount, hx, okCount_all_ok p bs hb]
  have herr : processErrors p (as ++ x :: bs) = [⟨.process, x, err⟩] := by
    rw [processErrors_append, processErrors_all_ok p as ha]
    simp [processErrors, hx, processErrors_all_ok p bs hb]
  refine ⟨?_, ?_, ?_⟩ <;>
    simp [processItemsResult, hrun, processorDrain_spec, hempty, hok, herr]

/-- C5: for a state snapshot whose only non-empty field is `processingQueue`,
`processItems()` with no argument terminates with an empty processing queue,
and the complete provider-call trace of the run is `formatForLog` followed by
`process` for exactly the items of that queue, each once, in order — nothing
else is handed to any provider callback. -/
theorem C5_processItems_drains_exactly (α ε : Type) (p : Provider α ε)
    (q : List (Node α)) :
    (processItemsRun p none (setState { processingQueue := some q } {})).processingQueue
      = [] ∧
    (processItemsRun p none (setState { processingQueue := some q } {})).trace
      = processTrace q := by
  rcases q with _ | ⟨n, ns⟩ <;>
    simp [processItemsRun, setState, processorDrain_spec, processTrace]

/-- C10: run results accumulate on top of restored state: after `setState`
with processed counter `k` and error list `E`, a `processItems` run over
further items returns `processed = k + n` where `n` is the number of items
whose `process` succeeded, and an error list equal to `E` extended by exactly
the `m` new per-item failure entries, with `n + m` the number of items. -/
theorem C10_results_accumulate (α ε : Type) (p : Provider α ε)
    (k : Nat) (E : List (ErrorItem α ε)) (items : List (Node α)) :
    (processItemsResult p (some items)
        (setState { errors := some E, processed := some k } {})).processed
      = k + okCount p items ∧
    (processItemsResult p (some items)
        (setState { errors := some E, processed := some k } {})).errors
      = E ++ processErrors p items ∧
    okCount p items + (processErrors p items).length = items.length := by
  refine ⟨?_, ?_, okCount_add_processErrors_length p items⟩ <;>
    rcases items with _ | ⟨n, ns⟩ <;>
      simp [processItemsResult, processItemsRun, setState, processorDrain_spec,
        okCount, processErrors]

/-- A provider over `Nat` payloads whose `process` fails exactly on payload 0
(used to exercise per-item failure handling on concrete inputs). -/
def failZeroProvider : Provider Nat Unit where
  formatForLog n := n
  hasMore _ := .ok false
  getBatch _ := .ok []
  shouldProcess _ := .ok false
  process n := if n.val = 0 then .error () else .ok ()

theorem C3_process_failure_isolated_witness :
    (∀ y ∈ [Node.mk 1 none], failZeroProvider.process y = .ok ()) ∧
    (∀ y ∈ [Node.mk 2 none, Node.mk 3 none], failZeroProvider.process y = .ok ()) ∧
    failZeroProvider.process (Node.mk 0 none) = .error () ∧
    ((processItemsResult failZeroProvider
        (some ([Node.mk 1 none] ++ Node.mk 0 none :: [Node.mk 2 none, Node.mk 3 none]))
        {}).processed =
        ([Node.mk 1 none] ++ Node.mk 0 none :: [Node.mk 2 none, Node.mk 3 none]).length - 1 ∧
      (processItemsResult failZeroProvider
        (some ([Node.mk 1 none] ++ Node.mk 0 none :: [Node.mk 2 none, Node.mk 3 none]))
        {}).errors = [⟨.process, Node.mk 0 none, ()⟩] ∧
      (processItemsRun failZeroProvider
        (some ([Node.mk 1 none] ++ Node.mk 0 none :: [Node.mk 2 none, Node.mk 3 none]))
        {}).processingQueue = []) :=
  ⟨by simp [failZeroProvider], by simp [failZeroProvider], by simp [failZeroProvider],
    C3_process_failure_isolated Nat Unit failZeroProvider
      [Node.mk 1 none] [Node.mk 2 none, Node.mk 3 none] (Node.mk 0 none) ()
      (by simp [failZeroProvider]) (by simp [failZeroProvider])
      (by simp [failZeroProvider])⟩

/-- A provider over `Nat` payloads on which every callback succeeds trivially
(the `BaseBatchProvider` defaults, with `process` succeeding). -/
def okProvider : Provider Nat Unit where
  formatForLog n := n
  hasMore _ := .ok false
  getBatch _ := .ok []
  shouldProcess _ := .ok false
  process _ := .ok ()

/-- C2 counterexample: restore a snapshot whose `processingBatch` and
`traversalBatch` both hold the item `⟨0, none⟩` (and whose queues are empty).
The snapshot is stored faithfully, yet a subsequent `processItems()` run and a
subsequent `traverseTree()` run both complete with an empty provider-call
trace: the mid-flight batch item is never handed to `process` and never
traversed, contradicting the claim. -/
theorem C2_counterexample :
    (setState { processingBatch := some [Node.mk 0 none],
                traversalBatch := some [Node.mk 0 none] } ({} : Exec Nat Unit)).processingBatch
      = [Node.mk 0 none] ∧
    (setState { processingBatch := some [Node.mk 0 none],
                traversalBatch := some [Node.mk 0 none] } ({} : Exec Nat Unit)).traversalBatch
      = [Node.mk 0 none] ∧
    (processItemsRun okProvider none
        (setState { processingBatch := some [Node.mk 0 none],
                    traversalBatch := some [Node.mk 0 none] } {})).trace = [] ∧
    (processItemsRun okProvider none
        (setState { processingBatch := some [Node.mk 0 none],
                    traversalBatch := some [Node.mk 0 none] } {})).processed = 0 ∧
    (traverseTreeRun okProvider none (fun _ => true) 5
        (setState { processingBatch := some [Node.mk 0 none],
                    traversalBatch := some [Node.mk 0 none] } {})).trace = [] ∧
    (traverseTreeRun okProvider none (fun _ => true) 5
        (setState { processingBatch := some [Node.mk 0 none],
                    traversalBatch := some [Node.mk 0 none] } {})).traversed = 0 :=
  ⟨rfl, rfl, rfl, rfl, rfl, rfl⟩

/-- C2 as amended: `setState` stores the `processingBatch`/`traversalBatch`
fields and `getState` returns them unchanged, but a subsequent run never reads
them back: restored mid-flight batch items are not re-executed.  In
particular, a run resumed from a snapshot whose queues are empty performs no
provider call at all, whatever the batch fields hold — resume re-executes only
the `*Queue` fields. -/
theorem C2_amended_batches_not_reexecuted (α ε : Type) (p : Provider α ε)
    (inp : StateInput α ε) (fuel : Nat)
    (hpq : inp.processingQueue.getD [] = [])
    (htq : inp.traversalQueue.getD [] = []) :
    (getState (setState inp {})).processingBatch = inp.processingBatch.getD [] ∧
    (getState (setState inp {})).traversalBatch = inp.traversalBatch.getD [] ∧
    (processItemsRun p none (setState inp {})).trace = [] ∧
    (traverseTreeRun p none (fun _ => true) fuel (setState inp {})).trace = [] := by
  refine ⟨rfl, rfl, ?_, ?_⟩
  · simp [processItemsRun, setState, hpq, processorDrain]
  · rw [traverseTreeRun, traversalLoop_of_empty]
    · simp [processorDrain, setState, hpq]
    · simp [setState, htq]

/-- A concrete snapshot whose only non-defaulted fields are the two mid-flight
batch lists. -/
def batchOnlyInput : StateInput Nat Unit where
  processingBatch := some [Node.mk 7 none]
  traversalBatch := some [Node.mk 8 none]

theorem C2_amended_batches_not_reexecuted_witness :
    batchOnlyInput.processingQueue.getD [] = [] ∧
    batchOnlyInput.traversalQueue.getD [] = [] ∧
    ((getState (setState batchOnlyInput {})).processingBatch
        = batchOnlyInput.processingBatch.getD [] ∧
      (getState (setState batchOnlyInput {})).traversalBatch
        = batchOnlyInput.traversalBatch.getD [] ∧
      (processItemsRun okProvider none (setState batchOnlyInput {})).trace = [] ∧
      (traverseTreeRun okProvider none (fun _ => true) 3
        (setState batchOnlyInput {})).trace = []) :=
  ⟨rfl, rfl,
    C2_amended_batches_not_reexecuted Nat Unit okProvider batchOnlyInput 3 rfl rfl⟩

/-- Whether a trace entry is a `hasMore` invocation (a traversal attempt on an
item starts with `formatForLog` and `hasMore`, so counting `hasMore` calls
counts traversal attempts). -/
def isHasMoreCall : Call α → Bool
  | .hasMore _ => true
  | _ => false

/-- A provider whose `hasMore` throws on a first traversal attempt (the item
has no `TRAVERSAL_RETRY` field) and, on the retried copy, throws again when
`failAgain` is true and otherwise reports no children; `shouldProcess` answers
`sp` and `process` succeeds. -/
def flakyProvider (α : Type) (failAgain sp : Bool) : Provider α Unit where
  formatForLog n := n
  hasMore n :=
    if n.TRAVERSAL_RETRY.isNone then .error ()
    else if failAgain then .error () else .ok false
  getBatch _ := .ok []
  shouldProcess _ := .ok sp
  process _ := .ok ()

lemma traverseNode_trace (p : Provider α ε) (e : Exec α ε) (n : Node α) :
    (traverseNode p e n).trace = e.trace ++ (discover p n).2 := by
  cases hd : discover p n with
  | mk res tr =>
    cases res with
    | ok v => simp [traverseNode, hd]
    | error err =>
      by_cases hr : n.TRAVERSAL_RETRY.isNone <;> simp [traverseNode, hd, hr]

lemma discover_trace_head (p : Provider α ε) (n : Node α) :
    ∃ rest, (discover p n).2 = [Call.formatForLog n, Call.hasMore n] ++ rest := by
  unfold discover
  cases hm : p.hasMore n with
  | error e => exact ⟨[], rfl⟩
  | ok b =>
    cases b with
    | false =>
      cases hs : p.shouldProcess n with
      | error e => exact ⟨_, rfl⟩
      | ok b2 => exact ⟨_, rfl⟩
    | true =>
      cases hg : p.getBatch n with
      | error e => exact ⟨_, rfl⟩
      | ok cs =>
        cases hs : p.shouldProcess n with
        | error e => exact ⟨_, rfl⟩
        | ok b2 => exact ⟨_, rfl⟩

/-- C9: when discovery throws for a not-yet-retried item, the value
re-enqueued onto the traversal queue is not the item itself but a copy of it
extended with `TRAVERSAL_RETRY := true` (a different value), and on the retry
attempt the provider callbacks receive this modified value: the engine's
internal retry marker is visible to the provider. -/
theorem C9_retry_marker_visible_to_provider (α ε : Type) (p : Provider α ε)
    (e e2 : Exec α ε) (n : Node α) (err : ε)
    (hn : n.TRAVERSAL_RETRY = none) (herr : (discover p n).1 = .error err) :
    traverseNode p e n =
      { e with
        traversalQueue := e.traversalQueue ++ [{ n with TRAVERSAL_RETRY := some true }]
        trace := e.trace ++ (discover p n).2 } ∧
    ({ n with TRAVERSAL_RETRY := some true } : Node α) ≠ n ∧
    (∃ rest, (traverseNode p e2 { n with TRAVERSAL_RETRY := some true }).trace
      = e2.trace ++ [Call.formatForLog { n with TRAVERSAL_RETRY := some true },
          Call.hasMore { n with TRAVERSAL_RETRY := some true }] ++ rest) := by
  obtain ⟨tr, hd⟩ : ∃ tr, discover p n = (Except.error err, tr) :=
    ⟨(discover p n).2, by rw [← herr]⟩
  refine ⟨?_, ?_, ?_⟩
  · rw [show (discover p n).2 = tr by rw [hd]]
    simp [traverseNode, hd, hn]
  · cases n with
    | mk v m =>
      simp only [StateInput] at hn ⊢
      simp_all
  · obtain ⟨rest, hrest⟩ :=
      discover_trace_head p ({ n with TRAVERSAL_RETRY := some true } : Node α)
    exact ⟨rest, by rw [traverseNode_trace, hrest]; simp⟩

theorem C9_retry_marker_visible_to_provider_witness :
    (Node.mk 5 none).TRAVERSAL_RETRY = none ∧
    (discover (flakyProvider Nat true true) (Node.mk 5 none)).1 = .error () ∧
    (traverseNode (flakyProvider Nat true true) {} (Node.mk 5 none) =
      { ({} : Exec Nat Unit) with
        traversalQueue := [{ Node.mk 5 none with TRAVERSAL_RETRY := some true }]
        trace := (discover (flakyProvider Nat true true) (Node.mk 5 none)).2 } ∧
      ({ Node.mk 5 none with TRAVERSAL_RETRY := some true } : Node Nat) ≠ Node.mk 5 none ∧
      (∃ rest, (traverseNode (flakyProvider Nat true true) {}
          { Node.mk 5 none with TRAVERSAL_RETRY := some true }).trace
        = ([] : List (Call Nat))
          ++ [Call.formatForLog { Node.mk 5 none with TRAVERSAL_RETRY := some true },
              Call.hasMore { Node.mk 5 none with TRAVERSAL_RETRY := some true }] ++ rest)) := by
  refine ⟨rfl, rfl, ?_⟩
  have h := C9_retry_marker_visible_to_provider Nat Unit (flakyProvider Nat true true)
    {} {} (Node.mk 5 none) () rfl rfl
  simpa using h

/-- A provider over `Nat` payloads describing the two-node tree `0 → 1`: the
root 0 has the single child 1, and only the root should be processed. -/
def rootChildProvider : Provider Nat Unit where
  formatForLog n := n
  hasMore n := .ok (n.val == 0)
  getBatch _ := .ok [Node.mk 1 none]
  shouldProcess n := .ok (n.val == 0)
  process _ := .ok ()

/-- C6 counterexample: a `traverseTree` run on the two-node tree `0 → 1` in
which `stop()` takes effect after the first traversal batch (the schedule is
true only at guard check 0).  When the stop takes effect, child `⟨1⟩` sits in
the traversal queue and root `⟨0⟩` sits in the processing queue, neither yet
pulled into a batch.  The final state keeps `⟨1⟩` in the traversal queue, but
`⟨0⟩` does not remain in the processing queue: the processing loop still
drains it (the trace ends with `process ⟨0⟩`), contradicting the claim that
every queued item remains in its queue. -/
theorem C6_counterexample :
    (traverseTreeRun rootChildProvider (some (Node.mk 0 none))
        (fun i => i == 0) 5 {}).traversalQueue = [Node.mk 1 none] ∧
    (traverseTreeRun rootChildProvider (some (Node.mk 0 none))
        (fun i => i == 0) 5 {}).processingQueue = [] ∧
    (traverseTreeRun rootChildProvider (some (Node.mk 0 none))
        (fun i => i == 0) 5 {}).trace =
      [Call.formatForLog (Node.mk 0 none), Call.hasMore (Node.mk 0 none),
        Call.getBatch (Node.mk 0 none), Call.shouldProcess (Node.mk 0 none),
        Call.formatForLog (Node.mk 0 none), Call.process (Node.mk 0 none)] :=
  ⟨rfl, rfl, rfl⟩

lemma processorDrain_traversalQueue (p : Provider α ε) (e : Exec α ε) :
    (processorDrain p e).traversalQueue = e.traversalQueue := by
  rw [processorDrain_spec]; split <;> rfl

lemma processorDrain_processingQueue (p : Provider α ε) (e : Exec α ε) :
    (processorDrain p e).processingQueue = [] := by
  rw [processorDrain_spec]; split
  · exact List.isEmpty_iff.mp (by assumption)
  · rfl

/-- C6 as amended: `stop()` is cooperative — the traversal loop ends after the
batch it is executing, and every item still in the traversal queue when the
loop exits remains there and appears in the `ExecutionState` returned by the
next `getState()`.  Items in the processing queue, however, do not remain:
after the stop the processing loop still drains everything queued, so the
final processing queue is always empty. -/
theorem C6_cooperative_stop_amended (α ε : Type) (p : Provider α ε)
    (root : Option (Node α)) (k fuel : Nat) :
    (traverseTreeRun p root (fun i => decide (i < k)) fuel {}).traversalQueue
      = (traversalLoop p (fun i => decide (i < k)) fuel 0
          { traversalQueue := root.toList }).traversalQueue ∧
    (getState (traverseTreeRun p root (fun i => decide (i < k)) fuel {})).traversalQueue
      = (traversalLoop p (fun i => decide (i < k)) fuel 0
          { traversalQueue := root.toList }).traversalQueue ∧
    (traverseTreeRun p root (fun i => decide (i < k)) fuel {}).processingQueue = [] := by
  have hbase : ({ ({} : Exec α ε) with traversalQueue := [] ++ root.toList })
      = ({ traversalQueue := root.toList } : Exec α ε) := rfl
  unfold traverseTreeRun
  rw [hbase]
  exact ⟨processorDrain_traversalQueue p _, processorDrain_traversalQueue p _,
    processorDrain_processingQueue p _⟩

/-- A finite tree with labelled nodes: the hierarchical input structure of the
tree-traversal mode. -/
inductive FinTree (β : Type) where
  | node (label : β) (children : List (FinTree β))

mutual
/-- The number of nodes of a finite tree. -/
def FinTree.size {β : Type} : FinTree β → Nat
  | .node _ cs => 1 + FinTree.sizeList cs
/-- The total number of nodes of a list of finite trees. -/
def FinTree.sizeList {β : Type} : List (FinTree β) → Nat
  | [] => 0
  | t :: ts => FinTree.size t + FinTree.sizeList ts
end

mutual
/-- The number of nodes of a finite tree whose label satisfies `pred`. -/
def FinTree.countP {β : Type} (pred : β → Bool) : FinTree β → Nat
  | .node lab cs => (if pred lab then 1 else 0) + FinTree.countListP pred cs
/-- The total number of nodes with label satisfying `pred` in a list of
trees. -/
def FinTree.countListP {β : Type} (pred : β → Bool) : List (FinTree β) → Nat
  | [] => 0
  | t :: ts => FinTree.countP pred t + FinTree.countListP pred ts
end

def FinTree.label {β : Type} : FinTree β → β
  | .node lab _ => lab

def FinTree.children {β : Type} : FinTree β → List (FinTree β)
  | .node _ cs => cs

/-- Wrap a subtree as a caller item (no `TRAVERSAL_RETRY` field). -/
def wrapTree {β : Type} (t : FinTree β) : Node (FinTree β) := ⟨t, none⟩

/-- The provider of a finite tree: items are subtrees, `hasMore` reports
whether a node has children, `getBatch` returns them, `shouldProcess` applies
`pred` to the node label, `process` succeeds; no callback ever throws. -/
def treeProvider {β : Type} (pred : β → Bool) : Provider (FinTree β) Unit where
  formatForLog n := n
  hasMore n := .ok (!n.val.children.isEmpty)
  getBatch n := .ok (n.val.children.map wrapTree)
  shouldProcess n := .ok (pred n.val.label)
  process _ := .ok ()

/-- All children items discovered for a list of queued items, in order. -/
def childrenOf {β : Type} : List (Node (FinTree β)) → List (Node (FinTree β))
  | [] => []
  | n :: ns => n.val.children.map wrapTree ++ childrenOf ns

/-- The queued items of a list whose own label satisfies `pred`, in order. -/
def toProcessOf {β : Type} (pred : β → Bool) :
    List (Node (FinTree β)) → List (Node (FinTree β))
  | [] => []
  | n :: ns => (if pred n.val.label then [n] else []) ++ toProcessOf pred ns

/-- The total number of tree nodes reachable from a list of queued items. -/
def nodesSize {β : Type} : List (Node (FinTree β)) → Nat
  | [] => 0
  | n :: ns => n.val.size + nodesSize ns

/-- The total number of reachable tree nodes satisfying `pred`. -/
def nodesCountP {β : Type} (pred : β → Bool) : List (Node (FinTree β)) → Nat
  | [] => 0
  | n :: ns => n.val.countP pred + nodesCountP pred ns

lemma FinTree.size_pos {β : Type} (t : FinTree β) : 0 < t.size := by
  cases t; simp [FinTree.size]

lemma nodesSize_eq_zero {β : Type} {ns : List (Node (FinTree β))}
    (h : nodesSize ns = 0) : ns = [] := by
  cases ns with
  | nil => rfl
  | cons n ns =>
    have := FinTree.size_pos n.val
    simp [nodesSize] at h
    omega

lemma nodesSize_map_wrap {β : Type} (cs : List (FinTree β)) :
    nodesSize (cs.map wrapTree) = FinTree.sizeList cs := by
  induction cs with
  | nil => simp [nodesSize, FinTree.sizeList]
  | cons c cs ih => simp [nodesSize, FinTree.sizeList, wrapTree, ih]

lemma nodesSize_append {β : Type} (l1 l2 : List (Node (FinTree β))) :
    nodesSize (l1 ++ l2) = nodesSize l1 + nodesSize l2 := by
  induction l1 with
  | nil => simp [nodesSize]
  | cons n ns ih => simp [nodesSize, ih, Nat.add_assoc]

lemma nodesSize_childrenOf {β : Type} (ns : List (Node (FinTree β))) :
    nodesSize ns = ns.length + nodesSize (childrenOf ns) := by
  induction ns with
  | nil => simp [nodesSize, childrenOf]
  | cons n ns ih =>
    rcases n with ⟨⟨lab, cs⟩, m⟩
    simp [nodesSize, childrenOf, nodesSize_append, nodesSize_map_wrap, ih,
      FinTree.size, FinTree.children]
    omega

lemma nodesCountP_map_wrap {β : Type} (pred : β → Bool) (cs : List (FinTree β)) :
    nodesCountP pred (cs.map wrapTree) = FinTree.countListP pred cs := by
  induction cs with
  | nil => simp [nodesCountP, FinTree.countListP]
  | cons c cs ih => simp [nodesCountP, FinTree.countListP, wrapTree, ih]

lemma nodesCountP_append {β : Type} (pred : β → Bool)
    (l1 l2 : List (Node (FinTree β))) :
    nodesCountP pred (l1 ++ l2) = nodesCountP pred l1 + nodesCountP pred l2 := by
  induction l1 with
  | nil => simp [nodesCountP]
  | cons n ns ih => simp [nodesCountP, ih, Nat.add_assoc]

lemma nodesCountP_childrenOf {β : Type} (pred : β → Bool)
    (ns : List (Node (FinTree β))) :
    nodesCountP pred ns
      = (toProcessOf pred ns).length + nodesCountP pred (childrenOf ns) := by
  induction ns with
  | nil => simp [nodesCountP, toProcessOf, childrenOf]
  | cons n ns ih =>
    rcases n with ⟨⟨lab, cs⟩, m⟩
    by_cases hp : pred lab <;>
      simp [nodesCountP, toProcessOf, childrenOf, nodesCountP_append,
        nodesCountP_map_wrap, ih, FinTree.countP, FinTree.label, FinTree.children,
        hp] <;>
      omega

lemma traverseNode_treeProvider {β : Type} (pred : β → Bool)
    (e : Exec (FinTree β) Unit) (n : Node (FinTree β)) :
    (traverseNode (treeProvider pred) e n).traversalQueue
        = e.traversalQueue ++ n.val.children.map wrapTree ∧
    (traverseNode (treeProvider pred) e n).processingQueue
        = e.processingQueue ++ (if pred n.val.label then [n] else []) ∧
    (traverseNode (treeProvider pred) e n).traversed = e.traversed + 1 ∧
    (traverseNode (treeProvider pred) e n).errors = e.errors ∧
    (traverseNode (treeProvider pred) e n).processed = e.processed ∧
    (traverseNode (treeProvider pred) e n).traversalBatch = e.traversalBatch := by
  rcases n with ⟨⟨lab, cs⟩, m⟩
  cases cs <;> by_cases hp : pred lab <;>
    simp [traverseNode, discover, treeProvider, FinTree.children, FinTree.label,
      hp]

lemma foldl_traverseNode_treeProvider {β : Type} (pred : β → Bool)
    (ns : List (Node (FinTree β))) (e : Exec (FinTree β) Unit) :
    (ns.foldl (traverseNode (treeProvider pred)) e).traversalQueue
        = e.traversalQueue ++ childrenOf ns ∧
    (ns.foldl (traverseNode (treeProvider pred)) e).processingQueue
        = e.processingQueue ++ toProcessOf pred ns ∧
    (ns.foldl (traverseNode (treeProvider pred)) e).traversed
        = e.traversed + ns.length ∧
    (ns.foldl (traverseNode (treeProvider pred)) e).errors = e.errors ∧
    (ns.foldl (traverseNode (treeProvider pred)) e).processed = e.processed ∧
    (ns.foldl (traverseNode (treeProvider pred)) e).traversalBatch
        = e.traversalBatch := by
  induction ns generalizing e with
  | nil => simp [childrenOf, toProcessOf]
  | cons n ns ih =>
    obtain ⟨h1, h2, h3, h4, h5, h6⟩ := traverseNode_treeProvider pred e n
    obtain ⟨g1, g2, g3, g4, g5, g6⟩ := ih (traverseNode (treeProvider pred) e n)
    refine ⟨?_, ?_, ?_, ?_, ?_, ?_⟩ <;>
      simp [List.foldl_cons, g1, g2, g3, g4, g5, g6, h1, h2, h3, h4, h5, h6,
        childrenOf, toProcessOf, List.append_assoc] <;>
      omega

lemma traversalStep_treeProvider {β : Type} (pred : β → Bool)
    (e : Exec (FinTree β) Unit) :
    (traversalStep (treeProvider pred) e).traversalQueue
        = childrenOf e.traversalQueue ∧
    (traversalStep (treeProvider pred) e).processingQueue
        = e.processingQueue ++ toProcessOf pred e.traversalQueue ∧
    (traversalStep (treeProvider pred) e).traversed
        = e.traversed + e.traversalQueue.length ∧
    (traversalStep (treeProvider pred) e).errors = e.errors ∧
    (traversalStep (treeProvider pred) e).processed = e.processed := by
  obtain ⟨g1, g2, g3, g4, g5, g6⟩ :=
    foldl_traverseNode_treeProvider pred e.traversalQueue
      { e with traversalQueue := [], traversalBatch := e.traversalQueue }
  exact ⟨by simpa using g1, by simpa using g2, by simpa using g3,
    by simpa using g4, by simpa using g5⟩

lemma traversalLoop_treeProvider {β : Type} (pred : β → Bool) :
    ∀ (fuel i : Nat) (e : Exec (FinTree β) Unit),
    nodesSize e.traversalQueue ≤ fuel →
    (traversalLoop (treeProvider pred) (fun _ => true) fuel i e).traversalQueue
        = [] ∧
    (traversalLoop (treeProvider pred) (fun _ => true) fuel i e).traversed
        = e.traversed + nodesSize e.traversalQueue ∧
    (traversalLoop (treeProvider pred) (fun _ => true) fuel i e).errors
        = e.errors ∧
    (traversalLoop (treeProvider pred) (fun _ => true) fuel i e).processed
        = e.processed ∧
    (traversalLoop (treeProvider pred) (fun _ => true) fuel i e).processingQueue.length
        = e.processingQueue.length + nodesCountP pred e.traversalQueue := by
  intro fuel
  induction fuel with
  | zero =>
    intro i e h
    have hQ : e.traversalQueue = [] := nodesSize_eq_zero (Nat.le_zero.mp h)
    simp [traversalLoop, hQ, nodesSize, nodesCountP]
  | succ fuel ih =>
    intro i e h
    by_cases hQ : e.traversalQueue = []
    · simp [traversalLoop, hQ, nodesSize, nodesCountP]
    · have hempty : e.traversalQueue.isEmpty = false := by
        simp [List.isEmpty_iff, hQ]
      have hguard :
          traversalLoop (treeProvider pred) (fun _ => true) (fuel + 1) i e
            = traversalLoop (treeProvider pred) (fun _ => true) fuel (i + 1)
                (traversalStep (treeProvider pred) e) := by
        simp [traversalLoop, hempty]
      obtain ⟨s1, s2, s3, s4, s5⟩ := traversalStep_treeProvider pred e
      have hc := nodesSize_childrenOf e.traversalQueue
      have hlen : 0 < e.traversalQueue.length := List.length_pos.mpr hQ
      have hsz : nodesSize (traversalStep (treeProvider pred) e).traversalQueue
          ≤ fuel := by
        rw [s1]; omega
      obtain ⟨g1, g2, g3, g4, g5⟩ :=
        ih (i + 1) (traversalStep (treeProvider pred) e) hsz
      rw [hguard]
      refine ⟨g1, ?_, by rw [g3, s4], by rw [g4, s5], ?_⟩
      · rw [g2, s3, s1]; omega
      · rw [g5, s2, s1]
        have hc2 := nodesCountP_childrenOf pred e.traversalQueue
        simp only [List.length_append]
        omega

lemma processorDrain_traversed (p : Provider α ε) (e : Exec α ε) :
    (processorDrain p e).traversed = e.traversed := by
  rw [processorDrain_spec]; split <;> rfl

lemma processorDrain_processed (p : Provider α ε) (e : Exec α ε) :
    (processorDrain p e).processed = e.processed + okCount p e.processingQueue := by
  rw [processorDrain_spec]; split
  · have hq : e.processingQueue = [] := List.isEmpty_iff.mp (by assumption)
    simp [hq, okCount]
  · rfl

lemma processorDrain_errors (p : Provider α ε) (e : Exec α ε) :
    (processorDrain p e).errors = e.errors ++ processErrors p e.processingQueue := by
  rw [processorDrain_spec]; split
  · have hq : e.processingQueue = [] := List.isEmpty_iff.mp (by assumption)
    simp [hq, processErrors]
  · rfl

/-- C1: for every finite tree (presented through its provider, whose callbacks
never throw), `traverseTree(root)` terminates — any fuel of at least the node
count reaches the fixpoint with both queues empty — and returns a result in
which `traversed` equals the number of nodes reachable from the root,
`processed` equals the number of those nodes whose label satisfies
`shouldProcess`, and no error was recorded. -/
theorem C1_traverseTree_completion {β : Type} (pred : β → Bool) (t : FinTree β)
    (fuel : Nat) (hf : t.size ≤ fuel) :
    (traverseTreeRun (treeProvider pred) (some (wrapTree t))
        (fun _ => true) fuel {}).traversalQueue = [] ∧
    (traverseTreeRun (treeProvider pred) (some (wrapTree t))
        (fun _ => true) fuel {}).processingQueue = [] ∧
    (traverseTreeResult (treeProvider pred) (some (wrapTree t))
        (fun _ => true) fuel {}).traversed = some t.size ∧
    (traverseTreeResult (treeProvider pred) (some (wrapTree t))
        (fun _ => true) fuel {}).processed = t.countP pred ∧
    (traverseTreeResult (treeProvider pred) (some (wrapTree t))
        (fun _ => true) fuel {}).errors = [] := by
  obtain ⟨g1, g2, g3, g4, g5⟩ :=
    traversalLoop_treeProvider pred fuel 0
      ({ traversalQueue := [wrapTree t] } : Exec (FinTree β) Unit)
      (by simpa [nodesSize, wrapTree] using hf)
  have hok : ∀ l : List (Node (FinTree β)),
      okCount (treeProvider pred) l = l.length :=
    fun l => okCount_all_ok _ l (fun y _ => rfl)
  have herrs : ∀ l : List (Node (FinTree β)),
      processErrors (treeProvider pred) l = [] :=
    fun l => processErrors_all_ok _ l (fun y _ => rfl)
  have hrun : traverseTreeRun (treeProvider pred) (some (wrapTree t))
      (fun _ => true) fuel {}
      = processorDrain (treeProvider pred)
          (traversalLoop (treeProvider pred) (fun _ => true) fuel 0
            ({ traversalQueue := [wrapTree t] } : Exec (FinTree β) Unit)) := rfl
  refine ⟨?_, ?_, ?_, ?_, ?_⟩
  · rw [hrun, processorDrain_traversalQueue]; exact g1
  · rw [hrun, processorDrain_processingQueue]
  · show some ((traverseTreeRun (treeProvider pred) (some (wrapTree t))
        (fun _ => true) fuel {}).traversed) = some t.size
    rw [hrun, processorDrain_traversed, g2]
    simp [nodesSize, wrapTree]
  · show (traverseTreeRun (treeProvider pred) (some (wrapTree t))
        (fun _ => true) fuel {}).processed = t.countP pred
    rw [hrun, processorDrain_processed, hok, g4, g5]
    simp [nodesCountP, wrapTree]
  · show (traverseTreeRun (treeProvider pred) (some (wrapTree t))
        (fun _ => true) fuel {}).errors = []
    rw [hrun, processorDrain_errors, herrs, g3]
    simp

/-- The spec's scenario tree: 5 internal nodes (label 0) and 8 leaf nodes
(label 1), 13 nodes over three levels. -/
def familyTree : FinTree Nat :=
  .node 0
    [.node 0 [.node 1 [], .node 1 []],
     .node 0 [.node 1 [], .node 1 []],
     .node 0 [.node 1 [], .node 1 []],
     .node 0 [.node 1 [], .node 1 []]]

theorem C1_traverseTree_completion_witness :
    familyTree.size ≤ 13 ∧
    ((traverseTreeRun (treeProvider fun b => b == 1) (some (wrapTree familyTree))
        (fun _ => true) 13 {}).traversalQueue = [] ∧
      (traverseTreeRun (treeProvider fun b => b == 1) (some (wrapTree familyTree))
        (fun _ => true) 13 {}).processingQueue = [] ∧
      (traverseTreeResult (treeProvider fun b => b == 1) (some (wrapTree familyTree))
        (fun _ => true) 13 {}).traversed = some familyTree.size ∧
      (traverseTreeResult (treeProvider fun b => b == 1) (some (wrapTree familyTree))
        (fun _ => true) 13 {}).processed = familyTree.countP (fun b => b == 1) ∧
      (traverseTreeResult (treeProvider fun b => b == 1) (some (wrapTree familyTree))
        (fun _ => true) 13 {}).errors = []) :=
  ⟨by norm_num [familyTree, FinTree.size, FinTree.sizeList],
    C1_traverseTree_completion (fun b => b == 1) familyTree 13
      (by norm_num [familyTree, FinTree.size, FinTree.sizeList])⟩

lemma traverseNode_retry (p : Provider α ε) (e : Exec α ε) (n : Node α) (err : ε)
    (hn : n.TRAVERSAL_RETRY = none) (h : (discover p n).1 = .error err) :
    traverseNode p e n =
      { e with
        traversalQueue := e.traversalQueue ++ [{ n with TRAVERSAL_RETRY := some true }]
        trace := e.trace ++ (discover p n).2 } := by
  obtain ⟨tr, hd⟩ : ∃ tr, discover p n = (Except.error err, tr) :=
    ⟨(discover p n).2, by rw [← h]⟩
  rw [show (discover p n).2 = tr by rw [hd]]
  simp [traverseNode, hd, hn]

lemma traverseNode_error_marked (p : Provider α ε) (e : Exec α ε) (n : Node α)
    (err : ε) (hn : n.TRAVERSAL_RETRY = some true)
    (h : (discover p n).1 = .error err) :
    traverseNode p e n =
      { e with
        errors := e.errors ++ [⟨.traverse, n, err⟩]
        trace := e.trace ++ (discover p n).2 } := by
  obtain ⟨tr, hd⟩ : ∃ tr, discover p n = (Except.error err, tr) :=
    ⟨(discover p n).2, by rw [← h]⟩
  rw [show (discover p n).2 = tr by rw [hd]]
  simp [traverseNode, hd, hn]

lemma traverseNode_ok (p : Provider α ε) (e : Exec α ε) (n : Node α)
    (cs : List (Node α)) (sp : Bool) (h : (discover p n).1 = .ok (cs, sp)) :
    traverseNode p e n =
      { e with
        traversalQueue := e.traversalQueue ++ cs
        processingQueue := if sp then e.processingQueue ++ [n] else e.processingQueue
        traversed := e.traversed + 1
        trace := e.trace ++ (discover p n).2 } := by
  obtain ⟨tr, hd⟩ : ∃ tr, discover p n = (Except.ok (cs, sp), tr) :=
    ⟨(discover p n).2, by rw [← h]⟩
  rw [show (discover p n).2 = tr by rw [hd]]
  simp [traverseNode, hd]

lemma traversalLoop_succ (p : Provider α ε) (r : Nat → Bool) (fuel i : Nat)
    (e : Exec α ε) (h : e.traversalQueue.isEmpty = false) (hr : r i = true) :
    traversalLoop p r (fuel + 1) i e
      = traversalLoop p r fuel (i + 1) (traversalStep p e) := by
  simp [traversalLoop, h, hr]

lemma processorDrain_trace (p : Provider α ε) (e : Exec α ε) :
    (processorDrain p e).trace = e.trace ++ processTrace e.processingQueue := by
  rw [processorDrain_spec]; split
  · have hq : e.processingQueue = [] := List.isEmpty_iff.mp (by assumption)
    simp [hq, processTrace]
  · rfl

lemma discover_countP_hasMore (p : Provider α ε) (n : Node α) :
    ((discover p n).2).countP isHasMoreCall = 1 := by
  unfold discover
  cases hm : p.hasMore n with
  | error e => simp [isHasMoreCall]
  | ok b =>
    cases b with
    | false => cases hs : p.shouldProcess n <;> simp [isHasMoreCall]
    | true =>
      cases hg : p.getBatch n with
      | error e => simp [isHasMoreCall]
      | ok cs => cases hs : p.shouldProcess n <;> simp [isHasMoreCall]

lemma processTrace_countP_hasMore (l : List (Node α)) :
    (processTrace l).countP isHasMoreCall = 0 := by
  induction l with
  | nil => simp [processTrace]
  | cons n ns ih => simp [processTrace, isHasMoreCall, ih]

/-- C4: for an item in the traversal queue, if any discovery call (`hasMore`,
`getBatch` or `shouldProcess`) throws on the item's first traversal attempt —
hypothesised as a failure of the whole discovery phase, whichever callback
raised it — and every discovery call succeeds on the second attempt, the item
contributes exactly 1 to the traversed counter and no entry to `errors`;
if discovery throws on both attempts, the traversed counter is not
incremented and exactly one error entry with method `'traverse'` is recorded;
in both cases exactly two traversal attempts occur (each attempt makes exactly
one `hasMore` call, so attempts are counted by `hasMore` invocations in the
trace), never a third. -/
theorem C4_bounded_retry (α ε : Type) (p q : Provider α ε) (v : α) (sp : Bool)
    (eA eB1 eB2 : ε)
    (hA1 : (discover p ⟨v, none⟩).1 = .error eA)
    (hA2 : (discover p ⟨v, some true⟩).1 = .ok ([], sp))
    (hA3 : p.process ⟨v, some true⟩ = .ok ())
    (hB1 : (discover q ⟨v, none⟩).1 = .error eB1)
    (hB2 : (discover q ⟨v, some true⟩).1 = .error eB2) :
    ((traverseTreeRun p (some ⟨v, none⟩) (fun _ => true) 2 {}).traversed = 1 ∧
      (traverseTreeRun p (some ⟨v, none⟩) (fun _ => true) 2 {}).errors = [] ∧
      ((traverseTreeRun p (some ⟨v, none⟩) (fun _ => true) 2 {}).trace.countP
        isHasMoreCall) = 2) ∧
    ((traverseTreeRun q (some ⟨v, none⟩) (fun _ => true) 2 {}).traversed = 0 ∧
      (traverseTreeRun q (some ⟨v, none⟩) (fun _ => true) 2 {}).errors
        = [⟨.traverse, ⟨v, some true⟩, eB2⟩] ∧
      ((traverseTreeRun q (some ⟨v, none⟩) (fun _ => true) 2 {}).trace.countP
        isHasMoreCall) = 2) := by
  have hs1A : traversalStep p ({ traversalQueue := [⟨v, none⟩] } : Exec α ε)
      = { traversalBatch := [⟨v, none⟩], traversalQueue := [⟨v, some true⟩],
          trace := (discover p ⟨v, none⟩).2 } := by
    have hb : traversalStep p ({ traversalQueue := [⟨v, none⟩] } : Exec α ε)
        = traverseNode p ({ traversalBatch := [⟨v, none⟩] } : Exec α ε)
            ⟨v, none⟩ := rfl
    rw [hb, traverseNode_retry p _ ⟨v, none⟩ eA rfl hA1]
    simp
  have hs2A : traversalStep p
        ({ traversalBatch := [⟨v, none⟩], traversalQueue := [⟨v, some true⟩],
           trace := (discover p ⟨v, none⟩).2 } : Exec α ε)
      = { traversalBatch := [⟨v, some true⟩], traversalQueue := [],
          processingQueue := if sp then [⟨v, some true⟩] else [],
          traversed := 1,
          trace := (discover p ⟨v, none⟩).2 ++ (discover p ⟨v, some true⟩).2 } := by
    have hb : traversalStep p
          ({ traversalBatch := [⟨v, none⟩], traversalQueue := [⟨v, some true⟩],
             trace := (discover p ⟨v, none⟩).2 } : Exec α ε)
        = traverseNode p
            ({ traversalBatch := [⟨v, some true⟩],
               trace := (discover p ⟨v, none⟩).2 } : Exec α ε)
            ⟨v, some true⟩ := rfl
    rw [hb, traverseNode_ok p _ ⟨v, some true⟩ [] sp hA2]
    cases sp <;> simp
  have hloopA : traversalLoop p (fun _ => true) 2 0
        ({ traversalQueue := [⟨v, none⟩] } : Exec α ε)
      = { traversalBatch := [⟨v, some true⟩], traversalQueue := [],
          processingQueue := if sp then [⟨v, some true⟩] else [],
          traversed := 1,
          trace := (discover p ⟨v, none⟩).2 ++ (discover p ⟨v, some true⟩).2 } := by
    have h1 : traversalLoop p (fun _ => true) 2 0
          ({ traversalQueue := [⟨v, none⟩] } : Exec α ε)
        = traversalLoop p (fun _ => true) 1 1
            (traversalStep p ({ traversalQueue := [⟨v, none⟩] } : Exec α ε)) :=
      traversalLoop_succ p (fun _ => true) 1 0 _ rfl rfl
    rw [h1, hs1A]
    have h2 : traversalLoop p (fun _ => true) 1 1
          ({ traversalBatch := [⟨v, none⟩], traversalQueue := [⟨v, some true⟩],
             trace := (discover p ⟨v, none⟩).2 } : Exec α ε)
        = traversalLoop p (fun _ => true) 0 2
            (traversalStep p
              ({ traversalBatch := [⟨v, none⟩],
                 traversalQueue := [⟨v, some true⟩],
                 trace := (discover p ⟨v, none⟩).2 } : Exec α ε)) :=
      traversalLoop_succ p (fun _ => true) 0 1 _ rfl rfl
    rw [h2, hs2A]
    rfl
  have hrunA : traverseTreeRun p (some ⟨v, none⟩) (fun _ => true) 2 {}
      = processorDrain p
          (traversalLoop p (fun _ => true) 2 0
            ({ traversalQueue := [⟨v, none⟩] } : Exec α ε)) := rfl
  have hprocA : processErrors p (if sp then [(⟨v, some true⟩ : Node α)] else [])
      = [] := by
    cases sp <;> simp [processErrors, hA3]
  have hs1B : traversalStep q ({ traversalQueue := [⟨v, none⟩] } : Exec α ε)
      = { traversalBatch := [⟨v, none⟩], traversalQueue := [⟨v, some true⟩],
          trace := (discover q ⟨v, none⟩).2 } := by
    have hb : traversalStep q ({ traversalQueue := [⟨v, none⟩] } : Exec α ε)
        = traverseNode q ({ traversalBatch := [⟨v, none⟩] } : Exec α ε)
            ⟨v, none⟩ := rfl
    rw [hb, traverseNode_retry q _ ⟨v, none⟩ eB1 rfl hB1]
    simp
  have hs2B : traversalStep q
        ({ traversalBatch := [⟨v, none⟩], traversalQueue := [⟨v, some true⟩],
           trace := (discover q ⟨v, none⟩).2 } : Exec α ε)
      = { errors := [⟨.traverse, ⟨v, some true⟩, eB2⟩],
          traversalBatch := [⟨v, some true⟩], traversalQueue := [],
          trace := (discover q ⟨v, none⟩).2 ++ (discover q ⟨v, some true⟩).2 } := by
    have hb : traversalStep q
          ({ traversalBatch := [⟨v, none⟩], traversalQueue := [⟨v, some true⟩],
             trace := (discover q ⟨v, none⟩).2 } : Exec α ε)
        = traverseNode q
            ({ traversalBatch := [⟨v, some true⟩],
               trace := (discover q ⟨v, none⟩).2 } : Exec α ε)
            ⟨v, some true⟩ := rfl
    rw [hb, traverseNode_error_marked q _ ⟨v, some true⟩ eB2 rfl hB2]
    simp
  have hloopB : traversalLoop q (fun _ => true) 2 0
        ({ traversalQueue := [⟨v, none⟩] } : Exec α ε)
      = { errors := [⟨.traverse, ⟨v, some true⟩, eB2⟩],
          traversalBatch := [⟨v, some true⟩], traversalQueue := [],
          trace := (discover q ⟨v, none⟩).2 ++ (discover q ⟨v, some true⟩).2 } := by
    have h1 : traversalLoop q (fun _ => true) 2 0
          ({ traversalQueue := [⟨v, none⟩] } : Exec α ε)
        = traversalLoop q (fun _ => true) 1 1
            (traversalStep q ({ traversalQueue := [⟨v, none⟩] } : Exec α ε)) :=
      traversalLoop_succ q (fun _ => true) 1 0 _ rfl rfl
    rw [h1, hs1B]
    have h2 : traversalLoop q (fun _ => true) 1 1
          ({ traversalBatch := [⟨v, none⟩], traversalQueue := [⟨v, some true⟩],
             trace := (discover q ⟨v, none⟩).2 } : Exec α ε)
        = traversalLoop q (fun _ => true) 0 2
            (traversalStep q
              ({ traversalBatch := [⟨v, none⟩],
                 traversalQueue := [⟨v, some true⟩],
                 trace := (discover q ⟨v, none⟩).2 } : Exec α ε)) :=
      traversalLoop_succ q (fun _ => true) 0 1 _ rfl rfl
    rw [h2, hs2B]
    rfl
  have hrunB : traverseTreeRun q (some ⟨v, none⟩) (fun _ => true) 2 {}
      = processorDrain q
          (traversalLoop q (fun _ => true) 2 0
            ({ traversalQueue := [⟨v, none⟩] } : Exec α ε)) := rfl
  refine ⟨⟨?_, ?_, ?_⟩, ?_, ?_, ?_⟩
  · rw [hrunA, hloopA, processorDrain_traversed]
  · rw [hrunA, hloopA, processorDrain_errors]
    simp [hprocA]
  · rw [hrunA, hloopA, processorDrain_trace]
    simp [List.countP_append, discover_countP_hasMore, processTrace_countP_hasMore]
  · rw [hrunB, hloopB, processorDrain_traversed]
  · rw [hrunB, hloopB, processorDrain_errors]
    simp [processErrors]
  · rw [hrunB, hloopB, processorDrain_trace]
    simp [List.countP_append, discover_countP_hasMore, processTrace_countP_hasMore,
      processTrace]

/-- A provider over `Nat` payloads whose `getBatch` throws on a first
traversal attempt and succeeds with no children on the retried copy, while
`hasMore`, `shouldProcess` and `process` always succeed: a transient
`getBatch` discovery failure. -/
def getBatchFlaky : Provider Nat Unit where
  formatForLog n := n
  hasMore _ := .ok true
  getBatch n := if n.TRAVERSAL_RETRY.isNone then .error () else .ok []
  shouldProcess _ := .ok true
  process _ := .ok ()

/-- A provider over `Nat` payloads whose `shouldProcess` always throws (so
discovery fails on the first attempt and on the retry), while `hasMore`,
`getBatch` and `process` succeed: a persistent `shouldProcess` discovery
failure. -/
def shouldProcessFlaky : Provider Nat Unit where
  formatForLog n := n
  hasMore _ := .ok false
  getBatch _ := .ok []
  shouldProcess _ := .error ()
  process _ := .ok ()

theorem C4_bounded_retry_witness :
    (discover getBatchFlaky ⟨5, none⟩).1 = .error () ∧
    (discover getBatchFlaky ⟨5, some true⟩).1 = .ok ([], true) ∧
    getBatchFlaky.process ⟨5, some true⟩ = .ok () ∧
    (discover shouldProcessFlaky ⟨5, none⟩).1 = .error () ∧
    (discover shouldProcessFlaky ⟨5, some true⟩).1 = .error () ∧
    (((traverseTreeRun getBatchFlaky (some ⟨5, none⟩) (fun _ => true) 2 {}).traversed
          = 1 ∧
        (traverseTreeRun getBatchFlaky (some ⟨5, none⟩) (fun _ => true) 2 {}).errors
          = [] ∧
        ((traverseTreeRun getBatchFlaky (some ⟨5, none⟩)
            (fun _ => true) 2 {}).trace.countP isHasMoreCall) = 2) ∧
      ((traverseTreeRun shouldProcessFlaky (some ⟨5, none⟩)
            (fun _ => true) 2 {}).traversed = 0 ∧
        (traverseTreeRun shouldProcessFlaky (some ⟨5, none⟩)
            (fun _ => true) 2 {}).errors = [⟨.traverse, ⟨5, some true⟩, ()⟩] ∧
        ((traverseTreeRun shouldProcessFlaky (some ⟨5, none⟩)
            (fun _ => true) 2 {}).trace.countP isHasMoreCall) = 2)) :=
  ⟨rfl, rfl, rfl, rfl, rfl,
    C4_bounded_retry Nat Unit getBatchFlaky shouldProcessFlaky 5 true () () ()
      rfl rfl rfl rfl rfl⟩

end BatchExec
